import Mathlib

/-
Verification of the Boavizta HelloAsso contribution-renewal batch job.

The development shallowly embeds the Go sources:
  * main.go          — payment filtering/reduction, email→member index,
                       classification of matched pairs, reminder sending
                       (sendEmailAndUpdate), status updates.
  * services/baserow/baserow.go — member-row field extraction (GetMembers helpers).

Modelling conventions:
  * Go time.Time instants are modelled as Int seconds (UTC).  time.Time.Before
    is `<` on instants; Format("2006-01-02") equality at day granularity is
    equality of floor-days (Int.fdiv by 86400); AddDate(0,0,-14) is
    subtraction of 14*86400 seconds.  The Go zero time (0001-01-01 UTC) is the
    instant -62135596800.
  * Go float64 JSON numbers appear here as Int: the program only type-switches
    on them and converts with int(v); no claim depends on fractional values.
  * samber/lo MaxBy, GroupBy, Filter, FilterMap, Reduce are embedded with the
    library's documented semantics (MaxBy keeps the first element when the
    strict comparison never improves on it; GroupBy preserves encounter order
    inside each group).  lo.Values iterates a Go map in unspecified order; the
    embedding fixes first-encounter key order, which is irrelevant to the
    set-level properties proved below.
  * The Go map acc[k]=v of the email index is a function String → Option Member
    updated pointwise.
  * Effects of sendEmailAndUpdate (brevo.SendEmail, baserow.UpdateMember) are
    reified as a list of RunAction values; the Bool parameter sendOk is the
    outcome of the send call.  The html/text bodies of the two templates are
    not carried in the action (no claim mentions them); the subject and the
    contribution link, which identify the selected template, are.
-/

/-- helloasso.Payment (services/helloasso/helloasso.go). -/
structure Payment where
  orderFormSlug : String
  orderDate : Int
  payerEmail : String
  payerFirstName : String
  payerLastName : String
  deriving DecidableEq

/-- baserow.Member (services/baserow/baserow.go).  The fields
alternativeEmail1, alternativeEmail2 and country are modelled from the spec:
the struct revision under src predates them, but main.go reads
member.AlternativeEmail1, member.AlternativeEmail2 and member.Country, and the
README lists the corresponding Baserow columns; they are plain strings. -/
structure Member where
  id : Int
  surname : String
  firstName : String
  email : String
  alternativeEmail1 : String
  alternativeEmail2 : String
  country : String
  activeMembership : Bool
  lastPaymentDate : Int
  lastContributionEmailDate : Int
  numberContributionsEmail : Int
  membershipType : Int
  preferredLanguages : List Int
  deriving DecidableEq

/-- MemberPaymentPair (main.go). -/
structure MemberPaymentPair where
  member : Member
  payment : Payment
  deriving DecidableEq

/-- Go zero time.Time (0001-01-01T00:00:00Z) as Unix seconds. -/
def goZeroTime : Int := -62135596800

/-- Day granularity of Format("2006-01-02"): two instants format equal iff
their floor-days agree (UTC model). -/
def dayOf (t : Int) : Int := Int.fdiv t 86400

/-- FrenchId constant of main.go. -/
def FrenchId : Int := 2591

/- ---------------------------------------------------------------- -/
/- Payment reducer (main.go lines 71-89)                            -/
/- ---------------------------------------------------------------- -/

/-- The slug filter of main.go: keep payments whose form slug is
"cotisation-annuelle" or "annual-membership-fee". -/
def filteredPayments (payments : List Payment) : List Payment :=
  payments.filter fun payment =>
    payment.orderFormSlug == "cotisation-annuelle" ||
      payment.orderFormSlug == "annual-membership-fee"

/-- The loop body of samber/lo MaxBy with comparison
p1.OrderDate.After(p2.OrderDate): the running maximum is replaced only when
the next item is strictly later, so the first maximal element wins ties. -/
def maxByRun (mx : Payment) : List Payment → Payment
  | [] => mx
  | item :: rest => maxByRun (if mx.orderDate < item.orderDate then item else mx) rest

/-- samber/lo MaxBy on a payment list (none on the empty list; main.go only
applies it to non-empty groups produced by GroupBy). -/
def loMaxBy : List Payment → Option Payment
  | [] => none
  | x :: rest => some (maxByRun x rest)

/-- Distinct keys in first-encounter order, as produced by lo.GroupBy. -/
def distinctKeys : List String → List String
  | [] => []
  | k :: rest => k :: (distinctKeys rest).filter fun x => x != k

/-- The group of payments sharing a payer email: lo.GroupBy appends in
encounter order, so each group is the in-order sublist with that key. -/
def groupFor (l : List Payment) (k : String) : List Payment :=
  l.filter fun p => p.payerEmail == k

/-- lo.Values (lo.MapValues (lo.GroupBy ...) MaxBy) of main.go: one payment
per distinct payer email, the group's MaxBy selection. -/
def uniquePayments (l : List Payment) : List Payment :=
  (distinctKeys (l.map Payment.payerEmail)).filterMap fun k => loMaxBy (groupFor l k)

/-- Whole payment reducer of main.go: slug filter, then per-email MaxBy. -/
def reducePayments (payments : List Payment) : List Payment :=
  uniquePayments (filteredPayments payments)

/- ---------------------------------------------------------------- -/
/- Email→member index (main.go lines 107-120)                       -/
/- ---------------------------------------------------------------- -/

/-- One step of the lo.Reduce building membersByEmail: register the primary
email, then each non-empty alternative email, overwriting existing entries. -/
def registerMember (acc : String → Option Member) (member : Member) :
    String → Option Member :=
  let acc1 : String → Option Member :=
    fun k => if k = member.email then some member else acc k
  let acc2 : String → Option Member :=
    if member.alternativeEmail1 ≠ "" then
      fun k => if k = member.alternativeEmail1 then some member else acc1 k
    else acc1
  if member.alternativeEmail2 ≠ "" then
    fun k => if k = member.alternativeEmail2 then some member else acc2 k
  else acc2

/-- membersByEmail of main.go: fold the member list into a lookup map. -/
def membersByEmail (members : List Member) : String → Option Member :=
  members.foldl registerMember fun _ => none

/- ---------------------------------------------------------------- -/
/- Classification of matched pairs (main.go lines 140-152)          -/
/- ---------------------------------------------------------------- -/

/-- Predicate of the membersToUpdatePaymentNeeded filter:
pair.Payment.OrderDate.Before(oneYearAgo). -/
def needsReminderB (oneYearAgo : Int) (pair : MemberPaymentPair) : Bool :=
  decide (pair.payment.orderDate < oneYearAgo)

/-- Predicate of the membersToUpdateStatusUpdate filter: order date on/after
the threshold AND (not active OR stored last-payment day differs from the
payment's order day). -/
def needsStatusUpdateB (oneYearAgo : Int) (pair : MemberPaymentPair) : Bool :=
  !(decide (pair.payment.orderDate < oneYearAgo)) &&
    (!pair.member.activeMembership ||
      decide (dayOf pair.member.lastPaymentDate ≠ dayOf pair.payment.orderDate))

/-- membersToUpdatePaymentNeeded of main.go. -/
def membersToUpdatePaymentNeeded (oneYearAgo : Int)
    (pairs : List MemberPaymentPair) : List MemberPaymentPair :=
  pairs.filter (needsReminderB oneYearAgo)

/-- membersToUpdateStatusUpdate of main.go. -/
def membersToUpdateStatusUpdate (oneYearAgo : Int)
    (pairs : List MemberPaymentPair) : List MemberPaymentPair :=
  pairs.filter (needsStatusUpdateB oneYearAgo)

/- ---------------------------------------------------------------- -/
/- Reminder email and bookkeeping (main.go sendEmailAndUpdate)      -/
/- ---------------------------------------------------------------- -/

/-- Locale decision of sendEmailAndUpdate: scan preferred-language ids for
FrenchId; if none matched and the country is "France", switch to French. -/
def isFrench (member : Member) : Bool :=
  let fromLangs := member.preferredLanguages.any fun langId => langId == FrenchId
  if !fromLangs && (member.country == "France") then true else fromLangs

/-- English-locale contribution link (the default in sendEmailAndUpdate). -/
def linkEn : String :=
  "https://www.helloasso.com/associations/boavizta/adhesions/annual-membership-fee"

/-- French-locale contribution link. -/
def linkFr : String :=
  "https://www.helloasso.com/associations/boavizta/adhesions/cotisation-annuelle"

/-- French email subject of sendEmailAndUpdate. -/
def subjectFr : String :=
  "Prêt pour une nouvelle année avec Boavizta ? Il est temps de renouveler votre adhésion"

/-- English email subject of sendEmailAndUpdate. -/
def subjectEn : String :=
  "Ready for another year with Boavizta? It\x27s time to renew your membership"

/-- Contribution link selected by sendEmailAndUpdate: starts English,
replaced by the French link when isFrench. -/
def contributionLinkFor (member : Member) : String :=
  if isFrench member then linkFr else linkEn

/-- Subject selected by the isFrench branch of sendEmailAndUpdate (the html
and text bodies follow the same branch and are not modelled). -/
def subjectFor (member : Member) : String :=
  if isFrench member then subjectFr else subjectEn

/-- Observable effects of one sendEmailAndUpdate call. -/
inductive RunAction where
  | sendEmail (subject link toEmail : String) : RunAction
  | persist (member : Member) : RunAction
  deriving DecidableEq

/-- sendEmailAndUpdate (main.go lines 231-334): mutate the local member copy,
then — only when the stored last-reminder date is strictly before now minus
14 days — attempt the Brevo send (sendOk is its outcome; on success the
reminder date and counter are updated) and call baserow.UpdateMember.  When
the guard fails nothing at all happens. -/
def sendEmailAndUpdate (now : Int) (sendOk : Bool) (pair : MemberPaymentPair) :
    List RunAction :=
  let member0 : Member :=
    { pair.member with activeMembership := false, lastPaymentDate := pair.payment.orderDate }
  if member0.lastContributionEmailDate < now - 14 * 86400 then
    let member1 : Member :=
      if sendOk then
        { member0 with
          lastContributionEmailDate := now,
          numberContributionsEmail := member0.numberContributionsEmail + 1 }
      else member0
    [RunAction.sendEmail (subjectFor member0) (contributionLinkFor member0) member0.email,
     RunAction.persist member1]
  else []

/- ---------------------------------------------------------------- -/
/- Baserow row decoding (services/baserow/baserow.go)               -/
/- ---------------------------------------------------------------- -/

/-- Decoded JSON values as Go's encoding/json produces them inside a
map[string]interface{} (numbers are float64; the program only converts them
with int(v), so they are carried as Int here). -/
inductive JValue where
  | str (s : String) : JValue
  | num (n : Int) : JValue
  | boolean (b : Bool) : JValue
  | obj (fields : List (String × JValue)) : JValue
  | arr (items : List JValue) : JValue
  | null : JValue

/-- Lookup in a decoded JSON object (Go map access data[key]; keys of a Go
map are unique, an assoc list returning the first hit models it). -/
def lookupJ (data : List (String × JValue)) (key : String) : Option JValue :=
  match data with
  | [] => none
  | (k, v) :: rest => if k = key then some v else lookupJ rest key

/-- getStringValue of baserow.go: the string value, or "" when absent or of
another type. -/
def getStringValue (data : List (String × JValue)) (key : String) : String :=
  match lookupJ data key with
  | some (JValue.str s) => s
  | _ => ""

/-- getBoolValue of baserow.go. -/
def getBoolValue (data : List (String × JValue)) (key : String) : Bool :=
  match lookupJ data key with
  | some (JValue.boolean b) => b
  | _ => false

/-- getIntValue of baserow.go (float64 assertion then int conversion). -/
def getIntValue (data : List (String × JValue)) (key : String) : Int :=
  match lookupJ data key with
  | some (JValue.num n) => n
  | _ => 0

/-- getSelectId of baserow.go: the "id" number of an object value, else 0. -/
def getSelectId (data : List (String × JValue)) (key : String) : Int :=
  match lookupJ data key with
  | some (JValue.obj fields) =>
    match lookupJ fields "id" with
    | some (JValue.num n) => n
    | _ => 0
  | _ => 0

/-- getMultiSelectIds of baserow.go: collect the "id" numbers of the object
items of an array value, skipping malformed items; nil (here []) otherwise. -/
def getMultiSelectIds (data : List (String × JValue)) (key : String) : List Int :=
  match lookupJ data key with
  | some (JValue.arr items) =>
    items.filterMap fun item =>
      match item with
      | JValue.obj fields =>
        match lookupJ fields "id" with
        | some (JValue.num n) => some n
        | _ => none
      | _ => none
  | _ => []

/-- Leap year of the proleptic Gregorian calendar (as Go time uses). -/
def isLeapYear (y : Nat) : Bool :=
  y % 4 == 0 && (y % 100 != 0 || y % 400 == 0)

/-- Days in a month, as validated by Go time.Parse. -/
def daysInMonth (y m : Nat) : Nat :=
  if m = 2 then (if isLeapYear y then 29 else 28)
  else if m = 4 ∨ m = 6 ∨ m = 9 ∨ m = 11 then 30
  else 31

/-- Digit value of an ASCII digit character. -/
def digitVal (c : Char) : Option Nat :=
  if c.isDigit then some (c.toNat - 48) else none

/-- Unix seconds of midnight UTC on a proleptic-Gregorian date (Julian day
number formula); Go's zero date 0001-01-01 maps to goZeroTime. -/
def civilToUnix (y m d : Nat) : Int :=
  let a := (14 - m) / 12
  let y2 := y + 4800 - a
  let m2 := m + 12 * a - 3
  let jdn := d + (153 * m2 + 2) / 5 + 365 * y2 + y2 / 4 - y2 / 100 + y2 / 400 - 32045
  ((jdn : Int) - 2440588) * 86400

/-- time.Parse("2006-01-02", s) of baserow.go: exactly four year digits, two
month digits, two day digits, dashes in between, month and day range-checked;
none on any mismatch (Go returns an error there). -/
def parseDate8 (s : String) : Option Int :=
  match s.toList with
  | [y1, y2, y3, y4, '-', m1, m2, '-', d1, d2] => do
    let a ← digitVal y1
    let b ← digitVal y2
    let c ← digitVal y3
    let d ← digitVal y4
    let e ← digitVal m1
    let f ← digitVal m2
    let g ← digitVal d1
    let h ← digitVal d2
    let year := ((a * 10 + b) * 10 + c) * 10 + d
    let month := e * 10 + f
    let day := g * 10 + h
    if 1 ≤ month ∧ month ≤ 12 ∧ 1 ≤ day ∧ day ≤ daysInMonth year month then
      some (civilToUnix year month day)
    else none
  | _ => none

/-- Date-column handling of GetMembers (baserow.go lines 98-111): a date
field keeps the zero time unless the column holds a non-empty string that
time.Parse accepts, in which case that date is stored. -/
def dateFieldOf (result : List (String × JValue)) (key : String) : Int :=
  match lookupJ result key with
  | some (JValue.str s) =>
    if s ≠ "" then
      match parseDate8 s with
      | some d => d
      | none => goZeroTime
    else goZeroTime
  | _ => goZeroTime

/-- Per-row member construction of GetMembers (baserow.go lines 86-114): the
getter helpers fill the typed fields, the two date columns are parsed
separately and left at the zero time when absent, empty or unparsable.  The
Baserow revision under src does not extract alternative emails or the
country, so they stay at their zero value "". -/
def memberOfRow (result : List (String × JValue)) : Member :=
  { id := getIntValue result "Id",
    surname := getStringValue result "Surname",
    firstName := getStringValue result "First name",
    email := getStringValue result "E-mail",
    alternativeEmail1 := "",
    alternativeEmail2 := "",
    country := "",
    activeMembership := getBoolValue result "Active MemberShip",
    lastPaymentDate := dateFieldOf result "Last Payment Date",
    lastContributionEmailDate := dateFieldOf result "Last Contribution Email Date",
    numberContributionsEmail := getIntValue result "Number of Contributions Email",
    membershipType := getSelectId result "Membership type",
    preferredLanguages := getMultiSelectIds result "Preferred languages" }

/- ---------------------------------------------------------------- -/
/- Sample data used by witnesses and counterexamples                -/
/- ---------------------------------------------------------------- -/

/-- Concrete payment builder for witnesses. -/
def mkPayment (slug : String) (d : Int) (em fn : String) : Payment :=
  { orderFormSlug := slug, orderDate := d, payerEmail := em,
    payerFirstName := fn, payerLastName := "" }

/-- Concrete member builder for witnesses. -/
def mkMember (em a1 a2 : String) (n : Int) : Member :=
  { id := n, surname := "", firstName := "", email := em,
    alternativeEmail1 := a1, alternativeEmail2 := a2, country := "",
    activeMembership := false, lastPaymentDate := 0,
    lastContributionEmailDate := 0, numberContributionsEmail := 0,
    membershipType := 0, preferredLanguages := [] }

/-- Concrete matched pair for the C3 witness. -/
def wPairC3 : MemberPaymentPair :=
  { member := { mkMember "p@x" "" "" 1 with lastContributionEmailDate := goZeroTime },
    payment := mkPayment "cotisation-annuelle" (-86400) "p@x" "A" }

/-- The member record sendEmailAndUpdate persists for wPairC3 at now = 0
after a successful send. -/
def wPersistedC3 : Member :=
  { mkMember "p@x" "" "" 1 with
    activeMembership := false, lastPaymentDate := -86400,
    lastContributionEmailDate := 0, numberContributionsEmail := 1 }

/-- Concrete payment list for the C4 witness. -/
def wPays : List Payment :=
  [mkPayment "cotisation-annuelle" 1 "a@x" "A",
   mkPayment "cotisation-annuelle" 2 "a@x" "B"]

/-- First of two equal-dated payments sharing a payer email (C6). -/
def tiePayA : Payment := mkPayment "cotisation-annuelle" 0 "a@x" "First"

/-- Second of two equal-dated payments sharing a payer email (C6). -/
def tiePayB : Payment := mkPayment "cotisation-annuelle" 0 "a@x" "Second"

/-- The index keys registerMember writes for a member: the primary email and
each non-empty alternative email. -/
def occupiesKey (m : Member) (k : String) : Prop :=
  k = m.email ∨ (m.alternativeEmail1 ≠ "" ∧ k = m.alternativeEmail1) ∨
    (m.alternativeEmail2 ≠ "" ∧ k = m.alternativeEmail2)

/-- A member with both alternative emails set (C8). -/
def memA : Member := mkMember "p@x" "a1@x" "a2@x" 1

/-- A later member re-registering the same primary email (C8). -/
def memB : Member := mkMember "p@x" "" "" 2

/- ---------------------------------------------------------------- -/
/- Claim theorems                                                   -/
/- ---------------------------------------------------------------- -/

/-- C1: every matched pair lands in exactly one of needs-reminder
(membersToUpdatePaymentNeeded), needs-status-update
(membersToUpdateStatusUpdate) or no-action: the two filters of main.go are
mutually exclusive and together with the no-action case cover every pair,
the decision depending only on the order date against the one-year threshold
and the member's stored state. -/
theorem classification_total_and_exclusive (oneYearAgo : Int)
    (pairs : List MemberPaymentPair) (pair : MemberPaymentPair)
    (h : pair ∈ pairs) :
    (pair ∈ membersToUpdatePaymentNeeded oneYearAgo pairs ∧
        pair ∉ membersToUpdateStatusUpdate oneYearAgo pairs) ∨
      (pair ∉ membersToUpdatePaymentNeeded oneYearAgo pairs ∧
        pair ∈ membersToUpdateStatusUpdate oneYearAgo pairs) ∨
      (pair ∉ membersToUpdatePaymentNeeded oneYearAgo pairs ∧
        pair ∉ membersToUpdateStatusUpdate oneYearAgo pairs) := by
  simp only [membersToUpdatePaymentNeeded, membersToUpdateStatusUpdate,
    List.mem_filter, h, true_and]
  by_cases hd : pair.payment.orderDate < oneYearAgo
  · left
    constructor
    · simp [needsReminderB, hd]
    · simp [needsStatusUpdateB, hd]
  · by_cases hs : needsStatusUpdateB oneYearAgo pair = true
    · right; left
      exact ⟨by simp [needsReminderB, hd], hs⟩
    · right; right
      exact ⟨by simp [needsReminderB, hd], hs⟩

/-- Witness for C1 at a concrete matched pair classified needs-reminder. -/
theorem classification_total_and_exclusive_witness :
    (let pair : MemberPaymentPair :=
        { member := mkMember "p@x" "" "" 1,
          payment := mkPayment "cotisation-annuelle" (-86400) "p@x" "A" };
      (pair ∈ membersToUpdatePaymentNeeded 0 [pair] ∧
          pair ∉ membersToUpdateStatusUpdate 0 [pair]) ∨
        (pair ∉ membersToUpdatePaymentNeeded 0 [pair] ∧
          pair ∈ membersToUpdateStatusUpdate 0 [pair]) ∨
        (pair ∉ membersToUpdatePaymentNeeded 0 [pair] ∧
          pair ∉ membersToUpdateStatusUpdate 0 [pair])) :=
  classification_total_and_exclusive 0 _ _ (by simp)

/-- C2: when the member's last-reminder date is not strictly before now minus
14 days, the run performs no send, no bookkeeping change and no persistence
for that member: sendEmailAndUpdate has no effects at all. -/
theorem reminder_guard_suppresses_run (now : Int) (sendOk : Bool)
    (pair : MemberPaymentPair)
    (h : ¬ (pair.member.lastContributionEmailDate < now - 14 * 86400)) :
    sendEmailAndUpdate now sendOk pair = [] := by
  simp only [sendEmailAndUpdate]
  rw [if_neg h]

/-- Witness for C2: a member reminded at instant 0 is skipped at now = 0. -/
theorem reminder_guard_suppresses_run_witness :
    sendEmailAndUpdate 0 true
        { member := mkMember "p@x" "" "" 1,
          payment := mkPayment "cotisation-annuelle" (-86400) "p@x" "A" } = [] :=
  reminder_guard_suppresses_run 0 true _ (by decide)

/-- C3: whatever member record sendEmailAndUpdate persists, its reminder
counter and last-reminder date are advanced exactly when the send succeeded,
and untouched when the send failed (or was never attempted, in which case
nothing is persisted at all). -/
theorem bookkeeping_only_after_success (now : Int) (sendOk : Bool)
    (pair : MemberPaymentPair) (m : Member)
    (h : RunAction.persist m ∈ sendEmailAndUpdate now sendOk pair) :
    (sendOk = true ∧
        m.numberContributionsEmail = pair.member.numberContributionsEmail + 1 ∧
        m.lastContributionEmailDate = now) ∨
      (sendOk = false ∧
        m.numberContributionsEmail = pair.member.numberContributionsEmail ∧
        m.lastContributionEmailDate = pair.member.lastContributionEmailDate) := by
  by_cases hg : pair.member.lastContributionEmailDate < now - 14 * 86400
  · cases sendOk with
    | true =>
      simp only [sendEmailAndUpdate, if_pos hg] at h
      simp at h
      subst h
      exact Or.inl ⟨rfl, rfl, rfl⟩
    | false =>
      simp only [sendEmailAndUpdate, if_pos hg] at h
      simp at h
      subst h
      exact Or.inr ⟨rfl, rfl, rfl⟩
  · have hempty : sendEmailAndUpdate now sendOk pair = [] := by
      simp only [sendEmailAndUpdate]
      rw [if_neg hg]
    rw [hempty] at h
    exact absurd h (List.not_mem_nil _)

/-- Witness for C3: a successful send at now = 0 for a member last reminded
at the Go zero time persists counter 1 and reminder date 0. -/
theorem bookkeeping_only_after_success_witness :
    (true = true ∧
        wPersistedC3.numberContributionsEmail =
          wPairC3.member.numberContributionsEmail + 1 ∧
        wPersistedC3.lastContributionEmailDate = 0) ∨
      (true = false ∧
        wPersistedC3.numberContributionsEmail =
          wPairC3.member.numberContributionsEmail ∧
        wPersistedC3.lastContributionEmailDate =
          wPairC3.member.lastContributionEmailDate) :=
  bookkeeping_only_after_success 0 true wPairC3 wPersistedC3 (by decide)

/-- The isFrench flag of sendEmailAndUpdate holds exactly when the French
language id is preferred or the country is "France". -/
theorem isFrench_iff (m : Member) :
    isFrench m = true ↔
      (FrenchId ∈ m.preferredLanguages ∨ m.country = "France") := by
  simp only [isFrench]
  by_cases hl : FrenchId ∈ m.preferredLanguages <;> by_cases hc : m.country = "France"
  · simp [List.any_eq_true, hl, hc]
  · simp [List.any_eq_true, hl, hc]
  · simp [List.any_eq_true, hl, hc]
    exact fun x hx hxe => hl (hxe ▸ hx)
  · simp [List.any_eq_true, hl, hc]

/-- C7: the French subject and French contribution link are selected exactly
when the French language id appears among the preferred languages, or none
does and the country is "France"; every other member gets the English
subject and link. -/
theorem locale_selection_iff (m : Member) :
    ((subjectFor m = subjectFr ∧ contributionLinkFor m = linkFr) ↔
      (FrenchId ∈ m.preferredLanguages ∨
        (FrenchId ∉ m.preferredLanguages ∧ m.country = "France"))) ∧
    ((subjectFor m = subjectEn ∧ contributionLinkFor m = linkEn) ↔
      ¬ (FrenchId ∈ m.preferredLanguages ∨
        (FrenchId ∉ m.preferredLanguages ∧ m.country = "France"))) := by
  have hcond :
      (FrenchId ∈ m.preferredLanguages ∨
          (FrenchId ∉ m.preferredLanguages ∧ m.country = "France")) ↔
        (FrenchId ∈ m.preferredLanguages ∨ m.country = "France") := by
    tauto
  have hsub : subjectFr ≠ subjectEn := by decide
  have hlink : linkFr ≠ linkEn := by decide
  by_cases hf : isFrench m = true
  · have hc : FrenchId ∈ m.preferredLanguages ∨ m.country = "France" :=
      (isFrench_iff m).mp hf
    constructor
    · simp [subjectFor, contributionLinkFor, hf, hcond, hc]
    · simp [subjectFor, contributionLinkFor, hf, hcond, hc, hsub]
  · have hc : ¬ (FrenchId ∈ m.preferredLanguages ∨ m.country = "France") :=
      fun hx => hf ((isFrench_iff m).mpr hx)
    constructor
    · simp [subjectFor, contributionLinkFor, hf, hcond, hc, hsub.symm]
    · simp [subjectFor, contributionLinkFor, hf, hcond, hc]

/-- C9: a member whose stored last-reminder date is the Go zero time — which
is exactly what GetMembers leaves when the Baserow column is absent, empty or
unparsable — always passes the 14-day guard (for any run instant at or after
the Unix epoch), so a send is attempted and a persistence call follows. -/
theorem zero_reminder_date_always_sends :
    (∀ row : List (String × JValue),
        (∀ s, lookupJ row "Last Contribution Email Date" = some (JValue.str s) →
            s = "" ∨ parseDate8 s = none) →
        (memberOfRow row).lastContributionEmailDate = goZeroTime) ∧
    (∀ (now : Int) (sendOk : Bool) (pair : MemberPaymentPair),
        pair.member.lastContributionEmailDate = goZeroTime → 0 ≤ now →
        ∃ subject link toEmail m,
          sendEmailAndUpdate now sendOk pair =
            [RunAction.sendEmail subject link toEmail, RunAction.persist m]) := by
  constructor
  · intro row hrow
    show dateFieldOf row "Last Contribution Email Date" = goZeroTime
    unfold dateFieldOf
    cases hl : lookupJ row "Last Contribution Email Date" with
    | none => rfl
    | some v =>
      cases v with
      | str s =>
        rcases hrow s hl with hs | hs
        · subst hs; simp
        · by_cases hse : s = ""
          · simp [hse]
          · simp [hse, hs]
      | num n => rfl
      | boolean b => rfl
      | obj fields => rfl
      | arr items => rfl
      | null => rfl
  · intro now sendOk pair hz hnow
    have hguard : pair.member.lastContributionEmailDate < now - 14 * 86400 := by
      rw [hz]
      simp only [goZeroTime]
      omega
    refine ⟨subjectFor { pair.member with activeMembership := false, lastPaymentDate := pair.payment.orderDate }, contributionLinkFor { pair.member with activeMembership := false, lastPaymentDate := pair.payment.orderDate }, pair.member.email, if sendOk then { pair.member with activeMembership := false, lastPaymentDate := pair.payment.orderDate, lastContributionEmailDate := now, numberContributionsEmail := pair.member.numberContributionsEmail + 1 } else { pair.member with activeMembership := false, lastPaymentDate := pair.payment.orderDate }, ?_⟩
    simp only [sendEmailAndUpdate]
    rw [if_pos hguard]

/-- Witness for C9: the empty Baserow row yields the zero reminder date, and
a pair carrying it is sent and persisted at now = 0. -/
theorem zero_reminder_date_always_sends_witness :
    (memberOfRow []).lastContributionEmailDate = goZeroTime ∧
    (∃ subject link toEmail m,
        sendEmailAndUpdate 0 true
            { member := { mkMember "p@x" "" "" 1 with
                lastContributionEmailDate := goZeroTime },
              payment := mkPayment "cotisation-annuelle" (-86400) "p@x" "A" } =
          [RunAction.sendEmail subject link toEmail, RunAction.persist m]) :=
  ⟨zero_reminder_date_always_sends.1 []
      (fun s hs => by simp [lookupJ] at hs),
   zero_reminder_date_always_sends.2 0 true _ rfl (le_refl 0)⟩

/-- C10: field extraction in GetMembers is total: each helper yields the Go
zero value (empty string, false, 0, empty id list) when the column is absent
or not of the expected JSON type, and a row with no usable column decodes to
the all-default member instead of an error. -/
theorem field_extraction_total_defaults (row : List (String × JValue))
    (key : String) :
    ((∀ s, lookupJ row key ≠ some (JValue.str s)) →
        getStringValue row key = "") ∧
    ((∀ b, lookupJ row key ≠ some (JValue.boolean b)) →
        getBoolValue row key = false) ∧
    ((∀ n, lookupJ row key ≠ some (JValue.num n)) →
        getIntValue row key = 0) ∧
    ((∀ fields, lookupJ row key ≠ some (JValue.obj fields)) →
        getSelectId row key = 0) ∧
    ((∀ items, lookupJ row key ≠ some (JValue.arr items)) →
        getMultiSelectIds row key = []) ∧
    memberOfRow [] =
      { id := 0, surname := "", firstName := "", email := "",
        alternativeEmail1 := "", alternativeEmail2 := "", country := "",
        activeMembership := false, lastPaymentDate := goZeroTime,
        lastContributionEmailDate := goZeroTime, numberContributionsEmail := 0,
        membershipType := 0, preferredLanguages := [] } := by
  refine ⟨?_, ?_, ?_, ?_, ?_, rfl⟩
  · intro h
    unfold getStringValue
    cases hl : lookupJ row key with
    | none => rfl
    | some v => cases v with
      | str s => exact absurd hl (h s)
      | num n => rfl
      | boolean b => rfl
      | obj fields => rfl
      | arr items => rfl
      | null => rfl
  · intro h
    unfold getBoolValue
    cases hl : lookupJ row key with
    | none => rfl
    | some v => cases v with
      | str s => rfl
      | num n => rfl
      | boolean b => exact absurd hl (h b)
      | obj fields => rfl
      | arr items => rfl
      | null => rfl
  · intro h
    unfold getIntValue
    cases hl : lookupJ row key with
    | none => rfl
    | some v => cases v with
      | str s => rfl
      | num n => exact absurd hl (h n)
      | boolean b => rfl
      | obj fields => rfl
      | arr items => rfl
      | null => rfl
  · intro h
    unfold getSelectId
    cases hl : lookupJ row key with
    | none => rfl
    | some v => cases v with
      | str s => rfl
      | num n => rfl
      | boolean b => rfl
      | obj fields => exact absurd hl (h fields)
      | arr items => rfl
      | null => rfl
  · intro h
    unfold getMultiSelectIds
    cases hl : lookupJ row key with
    | none => rfl
    | some v => cases v with
      | str s => rfl
      | num n => rfl
      | boolean b => rfl
      | obj fields => rfl
      | arr items => exact absurd hl (h items)
      | null => rfl

/-- Witness for C10 at the empty row and an arbitrary concrete key. -/
theorem field_extraction_total_defaults_witness :
    getStringValue [] "k" = "" ∧ getBoolValue [] "k" = false ∧
    getIntValue [] "k" = 0 ∧ getSelectId [] "k" = 0 ∧
    getMultiSelectIds [] "k" = [] :=
  ⟨(field_extraction_total_defaults [] "k").1 (fun s hs => by simp [lookupJ] at hs),
   (field_extraction_total_defaults [] "k").2.1 (fun b hb => by simp [lookupJ] at hb),
   (field_extraction_total_defaults [] "k").2.2.1 (fun n hn => by simp [lookupJ] at hn),
   (field_extraction_total_defaults [] "k").2.2.2.1 (fun f hf => by simp [lookupJ] at hf),
   (field_extraction_total_defaults [] "k").2.2.2.2.1 (fun i hi => by simp [lookupJ] at hi)⟩

/-- The MaxBy loop result is one of the scanned payments. -/
theorem maxByRun_mem (mx : Payment) (l : List Payment) : maxByRun mx l ∈ mx :: l := by
  induction l generalizing mx with
  | nil => exact List.mem_singleton.mpr rfl
  | cons item rest ih =>
    show maxByRun (if mx.orderDate < item.orderDate then item else mx) rest ∈
      mx :: item :: rest
    by_cases h : mx.orderDate < item.orderDate
    · rw [if_pos h]
      have h2 := ih item
      simp only [List.mem_cons] at h2 ⊢
      tauto
    · rw [if_neg h]
      have h2 := ih mx
      simp only [List.mem_cons] at h2 ⊢
      tauto

/-- The MaxBy loop result dominates every scanned payment's order date. -/
theorem maxByRun_ge (mx : Payment) (l : List Payment) :
    ∀ q ∈ mx :: l, q.orderDate ≤ (maxByRun mx l).orderDate := by
  induction l generalizing mx with
  | nil =>
    intro q hq
    rw [List.mem_singleton] at hq
    subst hq
    exact le_refl _
  | cons item rest ih =>
    intro q hq
    show q.orderDate ≤
      (maxByRun (if mx.orderDate < item.orderDate then item else mx) rest).orderDate
    by_cases h : mx.orderDate < item.orderDate
    · rw [if_pos h]
      rcases List.mem_cons.mp hq with h1 | h1
      · rw [h1]
        exact le_trans (le_of_lt h) (ih item item (List.mem_cons_self _ _))
      · exact ih item q h1
    · rw [if_neg h]
      rcases List.mem_cons.mp hq with h1 | h1
      · rw [h1]
        exact ih mx mx (List.mem_cons_self _ _)
      · rcases List.mem_cons.mp h1 with h2 | h2
        · rw [h2]
          exact le_trans (le_of_not_lt h) (ih mx mx (List.mem_cons_self _ _))
        · exact ih mx q (List.mem_cons_of_mem _ h2)

/-- lo.MaxBy returns an element of its input. -/
theorem loMaxBy_mem {l : List Payment} {p : Payment} (h : loMaxBy l = some p) :
    p ∈ l := by
  cases l with
  | nil => cases h
  | cons x rest =>
    simp only [loMaxBy, Option.some.injEq] at h
    exact h ▸ maxByRun_mem x rest

/-- lo.MaxBy returns a payment whose order date dominates the whole input. -/
theorem loMaxBy_ge {l : List Payment} {p : Payment} (h : loMaxBy l = some p) :
    ∀ q ∈ l, q.orderDate ≤ p.orderDate := by
  cases l with
  | nil => intro q hq; cases hq
  | cons x rest =>
    simp only [loMaxBy, Option.some.injEq] at h
    exact fun q hq => h ▸ maxByRun_ge x rest q hq

/-- Membership in a GroupBy group is membership in the list with that key. -/
theorem mem_groupFor {l : List Payment} {k : String} {p : Payment} :
    p ∈ groupFor l k ↔ p ∈ l ∧ p.payerEmail = k := by
  simp [groupFor, List.mem_filter]

/-- distinctKeys preserves membership. -/
theorem mem_distinctKeys {l : List String} {k : String} :
    k ∈ distinctKeys l ↔ k ∈ l := by
  induction l with
  | nil => simp [distinctKeys]
  | cons a rest ih =>
    simp only [distinctKeys, List.mem_cons, List.mem_filter, bne_iff_ne, ne_eq]
    constructor
    · rintro (h | ⟨h1, _⟩)
      · exact Or.inl h
      · exact Or.inr (ih.mp h1)
    · rintro (h | h)
      · exact Or.inl h
      · by_cases hk : k = a
        · exact Or.inl hk
        · exact Or.inr ⟨ih.mpr h, hk⟩

/-- distinctKeys has no duplicate keys. -/
theorem distinctKeys_nodup (l : List String) : (distinctKeys l).Nodup := by
  induction l with
  | nil => simp [distinctKeys]
  | cons a rest ih =>
    simp only [distinctKeys]
    rw [List.nodup_cons]
    refine ⟨?_, List.Nodup.filter _ ih⟩
    intro hmem
    rw [List.mem_filter] at hmem
    simp at hmem

/-- distinctKeys fixes lists that are already duplicate-free. -/
theorem distinctKeys_of_nodup {l : List String} (h : l.Nodup) :
    distinctKeys l = l := by
  induction l with
  | nil => rfl
  | cons a rest ih =>
    rw [List.nodup_cons] at h
    simp only [distinctKeys, ih h.2]
    congr 1
    apply List.filter_eq_self.mpr
    intro x hx
    simp only [bne_iff_ne, ne_eq, decide_eq_true_eq]
    intro hxa
    exact h.1 (hxa ▸ hx)

/-- Mapping payer emails over a filterMap whose entries carry their key
recovers the key list. -/
theorem filterMap_emails {g : String → Option Payment} :
    ∀ {ks : List String},
      (∀ k ∈ ks, ∃ p, g k = some p ∧ p.payerEmail = k) →
      (ks.filterMap g).map Payment.payerEmail = ks := by
  intro ks
  induction ks with
  | nil => intro _; rfl
  | cons k rest ih =>
    intro h
    rcases h k (List.mem_cons_self _ _) with ⟨p, hg, he⟩
    simp only [List.filterMap_cons, hg, List.map_cons, he]
    rw [ih (fun k2 hk2 => h k2 (List.mem_cons_of_mem _ hk2))]

/-- A key occurring in the list has a non-empty group, so MaxBy yields a
payment carrying that key. -/
theorem groupFor_loMaxBy {l : List Payment} {k : String}
    (h : ∃ q ∈ l, q.payerEmail = k) :
    ∃ p, loMaxBy (groupFor l k) = some p ∧ p.payerEmail = k := by
  rcases h with ⟨q, hq, he⟩
  have hmem : q ∈ groupFor l k := mem_groupFor.mpr ⟨hq, he⟩
  cases hg : groupFor l k with
  | nil => rw [hg] at hmem; cases hmem
  | cons x rest =>
    refine ⟨maxByRun x rest, rfl, ?_⟩
    have hmax : maxByRun x rest ∈ groupFor l k := hg ▸ maxByRun_mem x rest
    exact (mem_groupFor.mp hmax).2

/-- The payer emails of the reduced set are exactly the distinct keys of the
input, in first-encounter order. -/
theorem uniquePayments_map_email (l : List Payment) :
    (uniquePayments l).map Payment.payerEmail =
      distinctKeys (l.map Payment.payerEmail) := by
  apply filterMap_emails
  intro k hk
  apply groupFor_loMaxBy
  have hmem : k ∈ l.map Payment.payerEmail := mem_distinctKeys.mp hk
  rcases List.mem_map.mp hmem with ⟨q, hq, he⟩
  exact ⟨q, hq, he⟩

/-- A list with duplicate-free payer emails has at most one entry with any
given email. -/
theorem nodup_filter_email_length {e : String} :
    ∀ {u : List Payment}, (u.map Payment.payerEmail).Nodup →
      (u.filter fun p => p.payerEmail == e).length ≤ 1 := by
  intro u
  induction u with
  | nil => intro _; simp
  | cons p rest ih =>
    intro h
    rw [List.map_cons, List.nodup_cons] at h
    rw [List.filter_cons]
    by_cases hp : (p.payerEmail == e) = true
    · rw [if_pos hp]
      have hnil : rest.filter (fun p2 => p2.payerEmail == e) = [] := by
        apply List.filter_eq_nil_iff.mpr
        intro q hq hbe
        apply h.1
        rw [List.mem_map]
        exact ⟨q, hq, by rw [eq_of_beq hbe, ← eq_of_beq hp]⟩
      rw [hnil]
      exact le_refl _
    · rw [if_neg hp]
      exact ih h.2

/-- C4: for every payment list and payer email, the reduced output has at
most one payment with that email, and that payment's order date dominates
every slug-filtered input payment with the same payer email. -/
theorem reduced_unique_and_latest (payments : List Payment) (email : String) :
    ((reducePayments payments).filter fun p => p.payerEmail == email).length ≤ 1 ∧
    ∀ p ∈ reducePayments payments, ∀ q ∈ filteredPayments payments,
      q.payerEmail = p.payerEmail → q.orderDate ≤ p.orderDate := by
  constructor
  · apply nodup_filter_email_length
    rw [reducePayments, uniquePayments_map_email]
    exact distinctKeys_nodup _
  · intro p hp q hq he
    rw [reducePayments, uniquePayments] at hp
    rcases List.mem_filterMap.mp hp with ⟨k, _, hmax⟩
    have hpk : p.payerEmail = k := (mem_groupFor.mp (loMaxBy_mem hmax)).2
    have hqg : q ∈ groupFor (filteredPayments payments) k :=
      mem_groupFor.mpr ⟨hq, by rw [he, hpk]⟩
    exact loMaxBy_ge hmax q hqg

/-- Witness for C4 on a two-payment list sharing one email. -/
theorem reduced_unique_and_latest_witness :
    ((reducePayments wPays).filter fun p => p.payerEmail == "a@x").length ≤ 1 ∧
    (mkPayment "cotisation-annuelle" 1 "a@x" "A").orderDate ≤
      (mkPayment "cotisation-annuelle" 2 "a@x" "B").orderDate :=
  ⟨(reduced_unique_and_latest wPays "a@x").1,
   (reduced_unique_and_latest wPays "a@x").2
     (mkPayment "cotisation-annuelle" 2 "a@x" "B") (by decide)
     (mkPayment "cotisation-annuelle" 1 "a@x" "A") (by decide) (by decide)⟩

/-- Every reduced payment still carries one of the two membership-fee slugs,
because MaxBy selects inside groups of slug-filtered payments. -/
theorem slug_of_mem_reduce {payments : List Payment} {p : Payment}
    (h : p ∈ reducePayments payments) :
    (p.orderFormSlug == "cotisation-annuelle" ||
      p.orderFormSlug == "annual-membership-fee") = true := by
  rw [reducePayments, uniquePayments] at h
  rcases List.mem_filterMap.mp h with ⟨k, _, hmax⟩
  have hpf : p ∈ filteredPayments payments :=
    (mem_groupFor.mp (loMaxBy_mem hmax)).1
  exact (List.mem_filter.mp hpf).2

/-- On a list with duplicate-free payer emails, grouping by email and taking
MaxBy per group returns the list unchanged. -/
theorem filterMap_groups_of_nodup :
    ∀ (u : List Payment), (u.map Payment.payerEmail).Nodup →
      (u.map Payment.payerEmail).filterMap (fun k => loMaxBy (groupFor u k)) = u := by
  intro u
  induction u with
  | nil => intro _; rfl
  | cons p rest ih =>
    intro h
    rw [List.map_cons, List.nodup_cons] at h
    obtain ⟨hnot, hnd⟩ := h
    rw [List.map_cons, List.filterMap_cons]
    have hgroup : groupFor (p :: rest) p.payerEmail = [p] := by
      rw [groupFor, List.filter_cons, if_pos (by simp)]
      rw [List.filter_eq_nil_iff.mpr ?_]
      intro q hq hbe
      exact hnot (List.mem_map.mpr ⟨q, hq, eq_of_beq hbe⟩)
    have hhead : loMaxBy (groupFor (p :: rest) p.payerEmail) = some p := by
      rw [hgroup]; rfl
    simp only [hhead]
    have htail : (rest.map Payment.payerEmail).filterMap
          (fun k => loMaxBy (groupFor (p :: rest) k)) =
        (rest.map Payment.payerEmail).filterMap (fun k => loMaxBy (groupFor rest k)) := by
      apply List.filterMap_congr
      intro k hk
      have hne : ¬ (p.payerEmail == k) = true := by
        simp only [beq_iff_eq]
        intro he
        exact hnot (he ▸ hk)
      rw [groupFor, List.filter_cons, if_neg hne]
      rfl
    rw [htail, ih hnd]

/-- uniquePayments fixes any list whose payer emails are duplicate-free. -/
theorem uniquePayments_of_nodup {u : List Payment}
    (h : (u.map Payment.payerEmail).Nodup) : uniquePayments u = u := by
  rw [uniquePayments, distinctKeys_of_nodup h]
  exact filterMap_groups_of_nodup u h

/-- C5: the payment reducer is idempotent — applying the slug filter and the
per-email MaxBy reduction to its own output returns it unchanged. -/
theorem reduce_idempotent (payments : List Payment) :
    reducePayments (reducePayments payments) = reducePayments payments := by
  have hslug : filteredPayments (reducePayments payments) = reducePayments payments := by
    apply List.filter_eq_self.mpr
    intro p hp
    exact slug_of_mem_reduce hp
  show uniquePayments (filteredPayments (reducePayments payments)) = reducePayments payments
  rw [hslug]
  apply uniquePayments_of_nodup
  rw [reducePayments, uniquePayments_map_email]
  exact distinctKeys_nodup _

/-- C6 counterexample: two equal-dated payments for the same email; the last
one encountered is tiePayB, but the MaxBy selection and the whole reducer
keep tiePayA, the first one — ties are not broken last-seen-wins. -/
theorem maxBy_tie_keeps_first_cex :
    tiePayA.orderDate = tiePayB.orderDate ∧ tiePayA ≠ tiePayB ∧
    (groupFor (filteredPayments [tiePayA, tiePayB]) "a@x").getLast? = some tiePayB ∧
    loMaxBy (groupFor (filteredPayments [tiePayA, tiePayB]) "a@x") = some tiePayA ∧
    reducePayments [tiePayA, tiePayB] = [tiePayA] := by
  refine ⟨rfl, by decide, rfl, rfl, rfl⟩

/-- The MaxBy loop yields the first scanned payment attaining the maximal
order date: no earlier element's date reaches the result's date. -/
theorem maxByRun_first (l : List Payment) : ∀ (mx : Payment),
    (mx :: l).find? (fun q => decide ((maxByRun mx l).orderDate ≤ q.orderDate)) =
      some (maxByRun mx l) := by
  induction l with
  | nil =>
    intro mx
    simp [maxByRun]
  | cons item rest ih =>
    intro mx
    by_cases h : mx.orderDate < item.orderDate
    · have hrun : maxByRun mx (item :: rest) = maxByRun item rest := by
        simp only [maxByRun, if_pos h]
      rw [hrun]
      have hge : item.orderDate ≤ (maxByRun item rest).orderDate :=
        maxByRun_ge item rest item (List.mem_cons_self _ _)
      have hneg : ¬ ((maxByRun item rest).orderDate ≤ mx.orderDate) := by omega
      rw [List.find?_cons_of_neg _ (by simpa using hneg)]
      exact ih item
    · have hrun : maxByRun mx (item :: rest) = maxByRun mx rest := by
        simp only [maxByRun, if_neg h]
      rw [hrun]
      have hle : item.orderDate ≤ mx.orderDate := le_of_not_lt h
      have hih := ih mx
      by_cases hc : (maxByRun mx rest).orderDate ≤ mx.orderDate
      · have h1 : (mx :: rest).find?
            (fun q => decide ((maxByRun mx rest).orderDate ≤ q.orderDate)) = some mx :=
          List.find?_cons_of_pos _ (by simpa using hc)
        have h2 : maxByRun mx rest = mx := Option.some.inj (hih.symm.trans h1)
        rw [h2]
        exact List.find?_cons_of_pos _ (by simp)
      · have hpi : ¬ ((maxByRun mx rest).orderDate ≤ item.orderDate) := by omega
        rw [List.find?_cons_of_neg _ (by simpa using hc),
          List.find?_cons_of_neg _ (by simpa using hpi)]
        rw [List.find?_cons_of_neg _ (by simpa using hc)] at hih
        exact hih

/-- C6 amended: within a group sharing a payer email, the MaxBy selection is
the FIRST payment encountered whose order date attains the group maximum
(first-seen-wins), not the last. -/
theorem maxBy_selects_first_max (l : List Payment) (k : String) (p : Payment)
    (h : loMaxBy (groupFor l k) = some p) :
    (∀ q ∈ groupFor l k, q.orderDate ≤ p.orderDate) ∧
    (groupFor l k).find? (fun q => decide (p.orderDate ≤ q.orderDate)) = some p := by
  cases hg : groupFor l k with
  | nil => rw [hg] at h; cases h
  | cons x rest =>
    rw [hg] at h
    simp only [loMaxBy, Option.some.injEq] at h
    subst h
    constructor
    · intro q hq
      exact maxByRun_ge x rest q hq
    · exact maxByRun_first rest x

/-- Witness for C6 amended at the two tied payments. -/
theorem maxBy_selects_first_max_witness :
    (∀ q ∈ groupFor (filteredPayments [tiePayA, tiePayB]) "a@x",
        q.orderDate ≤ tiePayA.orderDate) ∧
    (groupFor (filteredPayments [tiePayA, tiePayB]) "a@x").find?
        (fun q => decide (tiePayA.orderDate ≤ q.orderDate)) = some tiePayA :=
  maxBy_selects_first_max (filteredPayments [tiePayA, tiePayB]) "a@x" tiePayA rfl

/-- C8 counterexample: memA has a primary email and two non-empty alternate
emails, yet after memB (registered later with the same primary email) the
index lookup under memA's primary email no longer reaches memA — the
last-registered member overwrote the entry. -/
theorem index_overwrite_cex :
    memA ∈ [memA, memB] ∧ memA.alternativeEmail1 ≠ "" ∧
    memA.alternativeEmail2 ≠ "" ∧
    ¬ (membersByEmail [memA, memB] memA.email = some memA) := by
  refine ⟨by decide, by decide, by decide, by decide⟩

/-- Registration writes a member under each of the keys it occupies. -/
theorem registerMember_occupied (acc : String → Option Member) (m : Member)
    (k : String) (h1 : m.alternativeEmail1 ≠ "") (h2 : m.alternativeEmail2 ≠ "")
    (hk : occupiesKey m k) : registerMember acc m k = some m := by
  have hb : registerMember acc m k =
      if k = m.alternativeEmail2 then some m
      else if k = m.alternativeEmail1 then some m
      else if k = m.email then some m
      else acc k := by
    simp [registerMember, h1, h2]
  rw [hb]
  rcases hk with hk | ⟨_, hk⟩ | ⟨_, hk⟩ <;> split_ifs <;> try rfl

/-- Registration leaves keys it does not occupy unchanged. -/
theorem registerMember_untouched (acc : String → Option Member) (m' : Member)
    (k : String) (hk : ¬ occupiesKey m' k) : registerMember acc m' k = acc k := by
  unfold occupiesKey at hk
  push_neg at hk
  obtain ⟨hk1, hk2, hk3⟩ := hk
  by_cases ha2 : m'.alternativeEmail2 ≠ ""
  · by_cases ha1 : m'.alternativeEmail1 ≠ ""
    · simp [registerMember, ha2, ha1, hk1, hk2 ha1, hk3 ha2]
    · simp [registerMember, ha2, ha1, hk1, hk3 ha2]
  · by_cases ha1 : m'.alternativeEmail1 ≠ ""
    · simp [registerMember, ha2, ha1, hk1, hk2 ha1]
    · simp [registerMember, ha2, ha1, hk1]

/-- Folding further members that occupy none of a key leaves it unchanged. -/
theorem foldl_register_untouched (k : String) :
    ∀ (post : List Member) (acc : String → Option Member),
      (∀ m' ∈ post, ¬ occupiesKey m' k) →
      post.foldl registerMember acc k = acc k := by
  intro post
  induction post with
  | nil => intro acc _; rfl
  | cons m' rest ih =>
    intro acc h
    rw [List.foldl_cons]
    rw [ih (registerMember acc m') (fun x hx => h x (List.mem_cons_of_mem _ hx))]
    exact registerMember_untouched acc m' k (h m' (List.mem_cons_self _ _))

/-- C8 amended: a member with a primary email and two non-empty alternate
emails is reachable in the index under all three, provided no member
registered after it occupies any of those three keys (the index overwrites
on collision, last-registered-wins). -/
theorem index_reachable_without_collision (pre post : List Member) (m : Member)
    (h1 : m.alternativeEmail1 ≠ "") (h2 : m.alternativeEmail2 ≠ "")
    (hpost : ∀ m' ∈ post, ¬ occupiesKey m' m.email ∧
      ¬ occupiesKey m' m.alternativeEmail1 ∧
      ¬ occupiesKey m' m.alternativeEmail2) :
    membersByEmail (pre ++ m :: post) m.email = some m ∧
    membersByEmail (pre ++ m :: post) m.alternativeEmail1 = some m ∧
    membersByEmail (pre ++ m :: post) m.alternativeEmail2 = some m := by
  have hfold : ∀ k : String, membersByEmail (pre ++ m :: post) k =
      post.foldl registerMember
        (registerMember (pre.foldl registerMember fun _ => none) m) k := by
    intro k
    rw [membersByEmail, List.foldl_append, List.foldl_cons]
  refine ⟨?_, ?_, ?_⟩
  · rw [hfold, foldl_register_untouched m.email post _ (fun x hx => (hpost x hx).1)]
    exact registerMember_occupied _ m _ h1 h2 (Or.inl rfl)
  · rw [hfold, foldl_register_untouched m.alternativeEmail1 post _
      (fun x hx => (hpost x hx).2.1)]
    exact registerMember_occupied _ m _ h1 h2 (Or.inr (Or.inl ⟨h1, rfl⟩))
  · rw [hfold, foldl_register_untouched m.alternativeEmail2 post _
      (fun x hx => (hpost x hx).2.2)]
    exact registerMember_occupied _ m _ h1 h2 (Or.inr (Or.inr ⟨h2, rfl⟩))

/-- Witness for C8 amended: a lone member with two non-empty alternates is
reachable under all three of its emails. -/
theorem index_reachable_without_collision_witness :
    membersByEmail ([] ++ memA :: []) memA.email = some memA ∧
    membersByEmail ([] ++ memA :: []) memA.alternativeEmail1 = some memA ∧
    membersByEmail ([] ++ memA :: []) memA.alternativeEmail2 = some memA :=
  index_reachable_without_collision [] [] memA (by decide) (by decide)
    (fun m' hm' => absurd hm' (List.not_mem_nil m'))
